import Mathlib

/-!
Verification of the ShelfTech web client core against its specification.

The embedding below translates, file by file, the algorithmic core of the
repository:

* `src/web/src/lib/tracking.ts` — IoU matching and box smoothing
  (`iou`, `lerpBbox`, `mergeWithPrevious`, `stepDisplayedTowardTarget`);
* `src/web/src/lib/audioPipeline.ts` — microphone capture encoding
  (`startMicCapture`'s `onaudioprocess` handler) and PCM playback
  scheduling (`playPcm24k` / `drainPlayback`);
* the `GeminiLiveClient` class (live-session WebSocket client): its
  connection state machine, outbound queue, and message dispatch,
  modelled as an explicit step function over session events.

Numbers (JS doubles) are modelled by `ℚ`; labels by `String`.
-/

namespace ShelfTech

/-! ### tracking.ts : geometry -/

structure BoundingBox where
  x : ℚ
  y : ℚ
  width : ℚ
  height : ℚ
deriving DecidableEq, Repr

structure DetectedItem where
  label : String
  bbox : BoundingBox
deriving DecidableEq, Repr

instance : Inhabited BoundingBox := ⟨⟨0, 0, 0, 0⟩⟩
instance : Inhabited DetectedItem := ⟨⟨"", default⟩⟩

/-- `iou` from tracking.ts: intersection-over-union of two boxes,
`0` when the intersection is empty or degenerate, and `0` when the
union is non-positive. -/
def iou (a b : BoundingBox) : ℚ :=
  let ax1 := a.x
  let ay1 := a.y
  let ax2 := a.x + a.width
  let ay2 := a.y + a.height
  let bx1 := b.x
  let by1 := b.y
  let bx2 := b.x + b.width
  let by2 := b.y + b.height
  let ix1 := max ax1 bx1
  let iy1 := max ay1 by1
  let ix2 := min ax2 bx2
  let iy2 := min ay2 by2
  if ix2 ≤ ix1 ∨ iy2 ≤ iy1 then 0
  else
    let inter := (ix2 - ix1) * (iy2 - iy1)
    let areaA := a.width * a.height
    let areaB := b.width * b.height
    let union := areaA + areaB - inter
    if union ≤ 0 then 0 else inter / union

/-- `lerpBbox` from tracking.ts: componentwise linear interpolation. -/
def lerpBbox (a b : BoundingBox) (t : ℚ) : BoundingBox :=
  { x := a.x + (b.x - a.x) * t
    y := a.y + (b.y - a.y) * t
    width := a.width + (b.width - a.width) * t
    height := a.height + (b.height - a.height) * t }

def MATCH_IOU_THRESH : ℚ := 0.15

def LERP_SPEED : ℚ := 0.18

def STABILITY_IOU : ℚ := 0.82

/-- `GENERIC_LABELS` from tracking.ts (a JS `Set`, modelled as a list). -/
def GENERIC_LABELS : List String :=
  ["box", "boxes", "bottle", "bottles", "can", "cans", "container",
    "containers", "item", "items"]

/-- JS `String.prototype.toLowerCase()` on one character (ASCII range,
which covers every label constant in the source). -/
def jsToLowerChar (c : Char) : Char :=
  if 65 ≤ c.toNat ∧ c.toNat ≤ 90 then Char.ofNat (c.toNat + 32) else c

/-- JS `String.prototype.toLowerCase()` (ASCII model). -/
def jsToLowerCase (s : String) : String :=
  ⟨s.data.map jsToLowerChar⟩

/-- JS `String.prototype.trim()`: strip leading and trailing whitespace. -/
def jsTrim (s : String) : String :=
  ⟨((s.data.dropWhile Char.isWhitespace).reverse.dropWhile
      Char.isWhitespace).reverse⟩

/-- JS `String.prototype.split(/\s+/)` : split at maximal runs of
whitespace; a leading (resp. trailing) run contributes a leading
(resp. trailing) empty piece, and the empty string gives one empty
piece.  `inWs` records whether the previous character was part of a
whitespace run already accounted for. -/
def splitWsRuns : List Char → String → Bool → List String
  | [], cur, _ => [cur]
  | c :: rest, cur, inWs =>
    if c.isWhitespace then
      if inWs then splitWsRuns rest cur true
      else cur :: splitWsRuns rest "" true
    else splitWsRuns rest (cur.push c) false

/-- The pieces of `s.split(/\s+/)` in JS. -/
def jsSplitWs (s : String) : List String :=
  splitWsRuns s.data "" false

/-- `isGenericLabel` from tracking.ts. -/
def isGenericLabel (label : String) : Bool :=
  let lower := jsTrim (jsToLowerCase label)
  GENERIC_LABELS.contains lower || decide (lower.length ≤ 3)

/-- `isMoreSpecificThan` from tracking.ts. -/
def isMoreSpecificThan (prevLabel newLabel : String) : Bool :=
  if !isGenericLabel prevLabel then false
  else if isGenericLabel newLabel then false
  else decide (prevLabel.length ≤ newLabel.length)
    || decide (1 < (jsSplitWs newLabel).length)

/-- The inner `for (let i = ...)` scan of both tracker loops: over the
enumerated candidate list, skip indices already in `used`, and keep the
first index whose score strictly exceeds the best so far (initialised to
the match threshold). `score` is the IoU computation of the caller. -/
def scanBest (score : DetectedItem → ℚ) (used : List ℕ) :
    List (ℕ × DetectedItem) → Option ℕ → ℚ → Option ℕ × ℚ
  | [], bestIdx, bestIou => (bestIdx, bestIou)
  | (i, d) :: rest, bestIdx, bestIou =>
    if used.contains i then scanBest score used rest bestIdx bestIou
    else if bestIou < score d then scanBest score used rest (some i) (score d)
    else scanBest score used rest bestIdx bestIou

/-- The `for (const t of target)` loop of `mergeWithPrevious`; returns
the output items together with the final `used` set (the loop's mutable
`used` local, made explicit by state passing). -/
def mergeLoop (displayed : List DetectedItem) (lerpT : ℚ) :
    List DetectedItem → List ℕ → List DetectedItem × List ℕ
  | [], used => ([], used)
  | t :: ts, used =>
    match scanBest (fun d => iou d.bbox t.bbox) used displayed.enum
        none MATCH_IOU_THRESH with
    | (some bestIdx, bestIou) =>
      let prev := displayed.getD bestIdx default
      let useNewLabel := isMoreSpecificThan prev.label t.label
      let stableLabel := if useNewLabel then t.label else prev.label
      let stableBbox :=
        if STABILITY_IOU ≤ bestIou then prev.bbox
        else lerpBbox prev.bbox t.bbox lerpT
      let rest := mergeLoop displayed lerpT ts (bestIdx :: used)
      (⟨stableLabel, stableBbox⟩ :: rest.1, rest.2)
    | (none, _) =>
      let rest := mergeLoop displayed lerpT ts used
      (⟨t.label, t.bbox⟩ :: rest.1, rest.2)

/-- `mergeWithPrevious` from tracking.ts. -/
def mergeWithPrevious (displayed target : List DetectedItem)
    (lerpT : ℚ := 0.35) : List DetectedItem :=
  (mergeLoop displayed lerpT target []).1

/-- The `for (const d of displayed)` loop of `stepDisplayedTowardTarget`;
returns the matched output items together with the final `used` set. -/
def stepLoop (target : List DetectedItem) (lerpT : ℚ) :
    List DetectedItem → List ℕ → List DetectedItem × List ℕ
  | [], used => ([], used)
  | d :: ds, used =>
    match scanBest (fun item => iou d.bbox item.bbox) used target.enum
        none 0.05 with
    | (some bestIdx, _) =>
      let t := target.getD bestIdx default
      let overlap := iou d.bbox t.bbox
      let bbox :=
        if STABILITY_IOU ≤ overlap then d.bbox
        else lerpBbox d.bbox t.bbox lerpT
      let useNewLabel := isMoreSpecificThan d.label t.label
      let rest := stepLoop target lerpT ds (bestIdx :: used)
      (⟨if useNewLabel then t.label else d.label, bbox⟩ :: rest.1, rest.2)
    | (none, _) => stepLoop target lerpT ds used

/-- `stepDisplayedTowardTarget` from tracking.ts: matched displayed items
first, then the unmatched target items in index order. -/
def stepDisplayedTowardTarget (displayed target : List DetectedItem)
    (lerpT : ℚ := LERP_SPEED) : List DetectedItem :=
  let m := stepLoop target lerpT displayed []
  m.1 ++ ((List.range target.length).filter (fun i => !m.2.contains i)).map
      (fun i => let t := target.getD i default; ⟨t.label, t.bbox⟩)

/-! ### audioPipeline.ts : microphone capture encoding -/

def SEND_SAMPLE_RATE : ℕ := 16000

def RECV_SAMPLE_RATE : ℕ := 24000

def CHUNK_MS : ℕ := 100

/-- `SEND_FRAMES = (SEND_SAMPLE_RATE * CHUNK_MS) / 1000`, i.e. 1600. -/
def SEND_FRAMES : ℕ := SEND_SAMPLE_RATE * CHUNK_MS / 1000

/-- The per-sample clamp in `startMicCapture`'s `onaudioprocess`:
`Math.max(-1, Math.min(1, inputData[i]))`. -/
def clampSample (x : ℚ) : ℚ := max (-1) (min 1 x)

/-- The per-sample quantization in `startMicCapture`:
`Math.max(-32768, Math.min(32767, Math.floor(chunk[i] * 32767)))`. -/
def quantizeSample (s : ℚ) : ℤ := max (-32768) (min 32767 ⌊s * 32767⌋)

/-- Writing one chunk into an `Int16Array` for base64 encoding. -/
def encodeChunk (chunk : List ℚ) : List ℤ := chunk.map quantizeSample

/-- The `while (buffer.length >= SEND_FRAMES)` loop of `onaudioprocess`:
emit `SEND_FRAMES`-sample chunks (`splice(0, SEND_FRAMES)`) while enough
samples are buffered; returns the emitted chunks and the leftover buffer. -/
def emitChunks (buf : List ℚ) : List (List ℚ) × List ℚ :=
  if _h : SEND_FRAMES ≤ buf.length then
    let rest := emitChunks (buf.drop SEND_FRAMES)
    (buf.take SEND_FRAMES :: rest.1, rest.2)
  else ([], buf)
termination_by buf.length
decreasing_by
  simp only [List.length_drop]
  have h16 : SEND_FRAMES = 1600 := rfl
  omega

/-- One `onaudioprocess` callback: clamp each incoming sample, append to
the buffer, then emit full chunks. -/
def onAudioProcess (buffer inputData : List ℚ) : List (List ℚ) × List ℚ :=
  emitChunks (buffer ++ inputData.map clampSample)

/-- A whole capture session: fold the callback over the sequence of input
buffers delivered by the audio graph, collecting all emitted chunks;
the buffer starts empty. -/
def micRun (inputs : List (List ℚ)) : List (List ℚ) × List ℚ :=
  inputs.foldl
    (fun acc input =>
      let r := onAudioProcess acc.2 input
      (acc.1 ++ r.1, r.2))
    ([], [])

/-! ### audioPipeline.ts : PCM playback scheduling -/

/-- Decoding in `drainPlayback`: `float32[i] = int16[i] / 32768`. -/
def decodeSamples (int16 : List ℤ) : List ℚ :=
  int16.map (fun v => (v : ℚ) / 32768)

/-- `buffer.duration` of the `AudioBuffer` created in `drainPlayback`:
sample count over the 24 kHz playback rate. -/
def chunkDuration (int16 : List ℤ) : ℚ :=
  ((decodeSamples int16).length : ℚ) / (RECV_SAMPLE_RATE : ℚ)

/-- Module state of the playback half of audioPipeline.ts.  `started` is
a ghost log of the `node.start(start)` times, in call order. -/
structure PlaybackState where
  playbackQueue : List (List ℤ)
  nextPlayTime : ℚ
  started : List ℚ
deriving DecidableEq, Repr

/-- Initial module state: empty queue, `nextPlayTime = 0`. -/
def initialPlayback : PlaybackState := ⟨[], 0, []⟩

/-- `drainPlayback` with the context running (the suspended branch only
re-invokes the function after an async resume): shift one chunk, start it
at `Math.max(nextPlayTime, ctx.currentTime)`, and advance the watermark
by the chunk's duration.  `now` is `ctx.currentTime`. -/
def drainPlayback (now : ℚ) (st : PlaybackState) : PlaybackState :=
  match st.playbackQueue with
  | [] => st
  | chunk :: rest =>
    let start := max st.nextPlayTime now
    { playbackQueue := rest
      nextPlayTime := start + chunkDuration chunk
      started := st.started ++ [start] }

/-- `playPcm24k`: push the decoded chunk onto the queue and drain. -/
def playPcm24k (chunk : List ℤ) (now : ℚ) (st : PlaybackState) :
    PlaybackState :=
  drainPlayback now { st with playbackQueue := st.playbackQueue ++ [chunk] }

/-- `stopPlayback`: clear pending chunks and reset the watermark. -/
def stopPlayback (st : PlaybackState) : PlaybackState :=
  { st with playbackQueue := [], nextPlayTime := 0 }

/-! ### GeminiLiveClient : live-session WebSocket client

The class is modelled as an explicit step function over session events.
One model state covers one `connect()` call on a fresh client (the
idempotent early-return for an already-open socket is not re-entered).
Ghost fields record the externally observable behaviour: `sent` logs
every payload passed to `ws.send` in order, `stateLog` logs every
`onStateChange` emission, `resolved` holds the value the connect promise
was settled with (`resolveOnce` keeps the first), and `closeCalled`
records that `ws.close()` was invoked. -/

inductive ConnectionState
  | disconnected
  | connecting
  | settingUp
  | ready
  | error
deriving DecidableEq, Repr

/-- Outbound JSON payloads built by the client. -/
inductive OutMsg
  | setup
  | realtimeVideo (data : String)
  | realtimeAudio (data : String)
  | toolResponse (callId fnName : String)
deriving DecidableEq, Repr

/-- The shapes of inbound payloads distinguished by `handleMessage`
(checked in this order in the source): `setupComplete`, `goAway`,
`toolCall.functionCalls`, and the `serverContent` variants. -/
inductive InMsg
  | setupComplete
  | goAway
  | toolCall
  | interrupted
  | audioPart
  | textPart
  | turnComplete
  | otherContent
deriving DecidableEq, Repr

structure ClientState where
  /-- `this.ws` still refers to the socket created by this `connect()`
  (it is set to `null` by `onclose` and by `disconnect()`). -/
  wsAttached : Bool
  /-- the socket's `readyState` is `OPEN`. -/
  wsOpen : Bool
  /-- `ws.close()` has been invoked. -/
  closeCalled : Bool
  /-- `connectTimeoutId` has been cleared (or that timer already fired). -/
  timer1Cleared : Bool
  /-- value the connect promise was resolved with, if any. -/
  resolved : Option Bool
  isModelSpeaking : Bool
  sendQueue : List OutMsg
  sent : List OutMsg
  stateLog : List ConnectionState
deriving DecidableEq, Repr

/-- State right after `connect(apiKey)` ran its synchronous part on a
fresh client: `onStateChange('connecting')` was emitted, the socket was
created (not yet open), and both 15-second timers were armed. -/
def initialConnect : ClientState :=
  { wsAttached := true
    wsOpen := false
    closeCalled := false
    timer1Cleared := false
    resolved := none
    isModelSpeaking := false
    sendQueue := []
    sent := []
    stateLog := [.connecting] }

/-- The fixed connect timeout of both timers armed in `connect()`. -/
def CONNECT_TIMEOUT_MS : ℕ := 15000

/-- `resolveOnce`: settle the connect promise with the first value only. -/
def resolveOnce (s : ClientState) (ok : Bool) : ClientState :=
  if s.resolved.isSome then s else { s with resolved := some ok }

/-- `onStateChange` callback emission (ghost log). -/
def emitState (s : ClientState) (c : ConnectionState) : ClientState :=
  { s with stateLog := s.stateLog ++ [c] }

/-- `sendJSON`: send right away if `this.ws` is set and `OPEN`,
otherwise push onto the FIFO `sendQueue`. -/
def sendJSON (s : ClientState) (m : OutMsg) : ClientState :=
  if s.wsAttached && s.wsOpen then { s with sent := s.sent ++ [m] }
  else { s with sendQueue := s.sendQueue ++ [m] }

/-- `flushSendQueue`: while the queue is non-empty and the socket is
open, `shift` and send — i.e. send the whole queue in FIFO order. -/
def flushSendQueue (s : ClientState) : ClientState :=
  if s.wsAttached && s.wsOpen then
    { s with sent := s.sent ++ s.sendQueue, sendQueue := [] }
  else s

/-- `handleMessage` — the branch taken for each inbound payload shape:
`setupComplete` clears the stored timer, emits `ready`, flushes the
queue and resolves the promise with `true`; `goAway` emits
`disconnected`; `toolCall` only invokes `onToolCall`; the
`serverContent` variants touch only `isModelSpeaking` and callbacks. -/
def handleMessage (s : ClientState) (m : InMsg) : ClientState :=
  match m with
  | .setupComplete =>
    resolveOnce (flushSendQueue (emitState { s with timer1Cleared := true } .ready)) true
  | .goAway => emitState s .disconnected
  | .toolCall => s
  | .interrupted => { s with isModelSpeaking := false }
  | .audioPart => { s with isModelSpeaking := true }
  | .textPart => s
  | .turnComplete => { s with isModelSpeaking := false }
  | .otherContent => s

/-- Session events: the four WebSocket callbacks, the two 15-second
timers armed inside `connect()` (`connectTimeout1` is the one stored in
`connectTimeoutId` and cleared on `setupComplete`; `connectTimeout2` is
the second, anonymous `setTimeout` which is never cleared), and the
public send/disconnect methods. -/
inductive Ev
  | wsOpen
  | wsMessage (m : InMsg)
  | wsClose
  | wsError
  | connectTimeout1
  | connectTimeout2
  | callDisconnect
  | callSendVideoFrame (data : String)
  | callSendAudio (data : String)
  | callSendToolResponse (callId fnName : String)

/-- One event step of the client, following the source handlers:

* `onopen`: emits `settingUp` then `sendSetup` (a `sendJSON` of the
  setup payload, with the socket now `OPEN`);
* `onclose`: nulls `this.ws`, emits `disconnected`, resolves `false`;
* `onerror`: emits `error`, resolves `false`;
* stored timer: unless cleared, nulls `connectTimeoutId`, resolves
  `false`, emits `error`, and closes the socket if still attached;
* duplicate timer: always resolves `false` (a no-op once settled),
  emits `error`, and closes the socket if still attached;
* `disconnect()`: closes and nulls the socket, clears the queue and the
  speaking flag, emits `disconnected`;
* `sendVideoFrame`/`sendAudio`: return unless the socket is `OPEN`;
* `sendToolResponse`: `sendJSON` of the tool-response payload. -/
def step (s : ClientState) (e : Ev) : ClientState :=
  match e with
  | .wsOpen => sendJSON (emitState { s with wsOpen := true } .settingUp) .setup
  | .wsMessage m => handleMessage s m
  | .wsClose =>
    resolveOnce (emitState { s with wsAttached := false, wsOpen := false } .disconnected) false
  | .wsError => resolveOnce (emitState s .error) false
  | .connectTimeout1 =>
    if s.timer1Cleared then s
    else
      let s1 := emitState (resolveOnce { s with timer1Cleared := true } false) .error
      if s1.wsAttached then { s1 with closeCalled := true } else s1
  | .connectTimeout2 =>
    let s1 := emitState (resolveOnce s false) .error
    if s1.wsAttached then { s1 with closeCalled := true } else s1
  | .callDisconnect =>
    let s1 := if s.wsAttached then
        { s with closeCalled := true, wsAttached := false, wsOpen := false }
      else s
    emitState { s1 with sendQueue := [], isModelSpeaking := false } .disconnected
  | .callSendVideoFrame d =>
    if s.wsAttached && s.wsOpen then sendJSON s (.realtimeVideo d) else s
  | .callSendAudio d =>
    if s.wsAttached && s.wsOpen then sendJSON s (.realtimeAudio d) else s
  | .callSendToolResponse i n => sendJSON s (.toolResponse i n)

/-- Run a sequence of session events. -/
def runEvents (s : ClientState) (evs : List Ev) : ClientState :=
  evs.foldl step s

/-! ### Session-client lemmas -/

/-- A non-`setupComplete` inbound message leaves the connection-level
fields (socket, timers, promise, queue, wire log) unchanged. -/
theorem handleMessage_preserves (s : ClientState) (m : InMsg)
    (hm : m ≠ .setupComplete) :
    (handleMessage s m).resolved = s.resolved ∧
    (handleMessage s m).timer1Cleared = s.timer1Cleared ∧
    (handleMessage s m).wsAttached = s.wsAttached ∧
    (handleMessage s m).wsOpen = s.wsOpen ∧
    (handleMessage s m).sendQueue = s.sendQueue ∧
    (handleMessage s m).sent = s.sent := by
  cases m <;> simp_all [handleMessage, emitState]

/-- Folding any run of non-`setupComplete` inbound messages preserves
the connection-level fields. -/
theorem runMessages_preserves (msgs : List InMsg)
    (h : InMsg.setupComplete ∉ msgs) : ∀ s : ClientState,
    (runEvents s (msgs.map Ev.wsMessage)).resolved = s.resolved ∧
    (runEvents s (msgs.map Ev.wsMessage)).timer1Cleared = s.timer1Cleared ∧
    (runEvents s (msgs.map Ev.wsMessage)).wsAttached = s.wsAttached ∧
    (runEvents s (msgs.map Ev.wsMessage)).wsOpen = s.wsOpen ∧
    (runEvents s (msgs.map Ev.wsMessage)).sendQueue = s.sendQueue ∧
    (runEvents s (msgs.map Ev.wsMessage)).sent = s.sent := by
  induction msgs with
  | nil => intro s; simp [runEvents]
  | cons m rest ih =>
    intro s
    have hm : m ≠ InMsg.setupComplete := by
      intro hEq; exact h (hEq ▸ List.mem_cons_self m rest)
    have hrest : InMsg.setupComplete ∉ rest :=
      fun hr => h (List.mem_cons_of_mem m hr)
    obtain ⟨a1, a2, a3, a4, a5, a6⟩ := handleMessage_preserves s m hm
    obtain ⟨b1, b2, b3, b4, b5, b6⟩ := ih hrest (handleMessage s m)
    simp only [List.map_cons, runEvents, List.foldl_cons] at b1 b2 b3 b4 b5 b6 ⊢
    exact ⟨b1.trans a1, b2.trans a2, b3.trans a3, b4.trans a4,
      b5.trans a5, b6.trans a6⟩

theorem runEvents_append (s : ClientState) (evs1 evs2 : List Ev) :
    runEvents s (evs1 ++ evs2) = runEvents (runEvents s evs1) evs2 :=
  List.foldl_append step s evs1 evs2

/-! ### Claims about the session client -/

/-- C1 (failing input): after a successful connect — transport opens,
`setupComplete` arrives, the promise resolves `true` and the state
reaches `ready` — the second 15-second timer armed in `connect()`
(never cleared) still fires: it emits `error` and closes the socket,
so `ready` does not persist even though no transport error, close,
`goAway`, or `disconnect()` occurred. -/
theorem ready_killed_by_duplicate_connect_timer :
    (runEvents initialConnect
        [.wsOpen, .wsMessage .setupComplete, .connectTimeout2]).stateLog
      = [.connecting, .settingUp, .ready, .error] ∧
    (runEvents initialConnect
        [.wsOpen, .wsMessage .setupComplete, .connectTimeout2]).closeCalled
      = true ∧
    (runEvents initialConnect
        [.wsOpen, .wsMessage .setupComplete, .connectTimeout2]).resolved
      = some true := by
  decide

/-- C2: after `connect()` and transport open, if no `setupComplete`
arrives among the inbound messages and the (15 000 ms) connect timer
fires, the promise resolves `false` and the last emitted state is
`error`; conversely if `setupComplete` arrives before any timer fires,
the promise resolves `true` (and stays `true` even when the duplicate
timer fires later). -/
theorem connect_timeout_resolves_false (msgs : List InMsg)
    (h : InMsg.setupComplete ∉ msgs) :
    ((runEvents initialConnect
        ([Ev.wsOpen] ++ msgs.map Ev.wsMessage ++ [Ev.connectTimeout1])).resolved
      = some false ∧
     (runEvents initialConnect
        ([Ev.wsOpen] ++ msgs.map Ev.wsMessage ++ [Ev.connectTimeout1])).stateLog.getLast?
      = some .error) ∧
    ((runEvents initialConnect
        ([Ev.wsOpen] ++ msgs.map Ev.wsMessage
          ++ [Ev.wsMessage .setupComplete])).resolved = some true) ∧
    ((runEvents initialConnect
        ([Ev.wsOpen] ++ msgs.map Ev.wsMessage
          ++ [Ev.wsMessage .setupComplete, Ev.connectTimeout2])).resolved
      = some true) ∧
    CONNECT_TIMEOUT_MS = 15000 := by
  obtain ⟨p1, p2, p3, p4, p5, p6⟩ :=
    runMessages_preserves msgs h (runEvents initialConnect [Ev.wsOpen])
  have e1 : (runEvents initialConnect [Ev.wsOpen]).resolved = none := by decide
  have e2 : (runEvents initialConnect [Ev.wsOpen]).timer1Cleared = false := by
    decide
  have e3 : (runEvents initialConnect [Ev.wsOpen]).wsAttached = true := by
    decide
  have e4 : (runEvents initialConnect [Ev.wsOpen]).wsOpen = true := by decide
  rw [e1] at p1; rw [e2] at p2; rw [e3] at p3; rw [e4] at p4
  refine ⟨⟨?_, ?_⟩, ?_, ?_, rfl⟩
  · rw [runEvents_append, runEvents_append]
    show (step _ Ev.connectTimeout1).resolved = some false
    simp [step, resolveOnce, emitState, p1, p2, p3]
  · rw [runEvents_append, runEvents_append]
    show (step _ Ev.connectTimeout1).stateLog.getLast? = some .error
    simp [step, resolveOnce, emitState, p1, p2, p3]
  · rw [runEvents_append, runEvents_append]
    show (step _ (Ev.wsMessage .setupComplete)).resolved = some true
    simp [step, handleMessage, resolveOnce, flushSendQueue, emitState,
      p1, p3, p4]
  · rw [runEvents_append, runEvents_append]
    show (step (step _ (Ev.wsMessage .setupComplete))
        Ev.connectTimeout2).resolved = some true
    simp [step, handleMessage, resolveOnce, flushSendQueue, emitState,
      p1, p3, p4]

/-- C2 witness: a concrete run — transport opens, one `toolCall`
message arrives, then the timer fires. -/
theorem connect_timeout_resolves_false_witness :
    (runEvents initialConnect
        ([Ev.wsOpen] ++ [InMsg.toolCall].map Ev.wsMessage
          ++ [Ev.connectTimeout1])).resolved = some false ∧
    (runEvents initialConnect
        ([Ev.wsOpen] ++ [InMsg.toolCall].map Ev.wsMessage
          ++ [Ev.wsMessage .setupComplete])).resolved = some true :=
  ⟨(connect_timeout_resolves_false [InMsg.toolCall] (by decide)).1.1,
   (connect_timeout_resolves_false [InMsg.toolCall] (by decide)).2.1⟩

/-- C3 (counterexample): a tool response submitted while the state is
`connecting` is queued (not dropped), but the setup message — submitted
*after* it was queued, at transport open — goes out on the wire *before*
the queued message is flushed at `setupComplete`.  So queued messages
are not flushed "before any message sent after they were queued". -/
theorem queued_toolResponse_after_setup_on_wire :
    (runEvents initialConnect
        [.callSendToolResponse "call1" "execute"]).sendQueue
      = [.toolResponse "call1" "execute"] ∧
    (runEvents initialConnect
        [.callSendToolResponse "call1" "execute"]).sent = [] ∧
    (runEvents initialConnect
        [.callSendToolResponse "call1" "execute", .wsOpen,
          .wsMessage .setupComplete]).sent
      = [.setup, .toolResponse "call1" "execute"] := by
  decide

/-- C3 (amended): a message routed through `sendJSON` while the socket
is not open is appended to the FIFO queue and nothing is sent; on
`setupComplete` with the socket open, the whole queue is flushed onto
the wire in original order and emptied (so every queued message precedes
anything submitted after the flush).  A message submitted while the
socket is already open — such as the setup message sent at transport
open — bypasses the queue and may precede earlier-queued messages. -/
theorem sendQueue_fifo_flush (s : ClientState) (m : OutMsg) :
    (¬(s.wsAttached = true ∧ s.wsOpen = true) →
      (sendJSON s m).sendQueue = s.sendQueue ++ [m] ∧
      (sendJSON s m).sent = s.sent) ∧
    (s.wsAttached = true → s.wsOpen = true →
      (step s (.wsMessage .setupComplete)).sent = s.sent ++ s.sendQueue ∧
      (step s (.wsMessage .setupComplete)).sendQueue = [] ∧
      (sendJSON s m).sent = s.sent ++ [m] ∧
      (sendJSON s m).sendQueue = s.sendQueue) := by
  constructor
  · intro hcond
    have hb : (s.wsAttached && s.wsOpen) = false := by
      rcases Bool.eq_false_or_eq_true s.wsAttached with ha | ha <;>
        rcases Bool.eq_false_or_eq_true s.wsOpen with ho | ho <;>
          simp_all
    simp [sendJSON, hb]
  · intro ha ho
    simp [step, handleMessage, sendJSON, flushSendQueue, resolveOnce,
      emitState, ha, ho]
    constructor <;> split <;> rfl

/-- C3 amended witness: the queueing half at the fresh client (socket
not yet open) and the flush half right after the transport opened. -/
theorem sendQueue_fifo_flush_witness :
    ((sendJSON initialConnect (.toolResponse "c" "execute")).sendQueue
        = [.toolResponse "c" "execute"] ∧
      (sendJSON initialConnect (.toolResponse "c" "execute")).sent = []) ∧
    ((step (runEvents initialConnect
          [.callSendToolResponse "c" "execute", .wsOpen])
        (.wsMessage .setupComplete)).sent
      = [.setup, .toolResponse "c" "execute"]) := by
  refine ⟨?_, ?_⟩
  · have h := (sendQueue_fifo_flush initialConnect
      (.toolResponse "c" "execute")).1 (by decide)
    simpa using h
  · have h := (sendQueue_fifo_flush
      (runEvents initialConnect [.callSendToolResponse "c" "execute", .wsOpen])
      (.toolResponse "c" "execute")).2 (by decide) (by decide)
    have hsent : (runEvents initialConnect
        [.callSendToolResponse "c" "execute", .wsOpen]).sent = [.setup] := by
      decide
    have hq : (runEvents initialConnect
        [.callSendToolResponse "c" "execute", .wsOpen]).sendQueue
        = [.toolResponse "c" "execute"] := by decide
    rw [h.1, hsent, hq]
    rfl

/-- C4 (counterexample): with the transport open but setup not yet
acknowledged — the session is in `settingUp`, not `ready` — a
`sendVideoFrame` call is *not* a no-op: the frame goes out on the wire
immediately. -/
theorem sendVideoFrame_sends_while_settingUp :
    ConnectionState.ready
        ∉ (runEvents initialConnect [.wsOpen]).stateLog ∧
    (runEvents initialConnect [.wsOpen]).stateLog.getLast?
      = some .settingUp ∧
    (runEvents initialConnect
        [.wsOpen, .callSendVideoFrame "jpegframe"]).sent
      = [.setup, .realtimeVideo "jpegframe"] := by
  decide

/-- C4 (amended): `sendVideoFrame` and `sendAudio` are no-ops exactly
when the socket is not attached-and-open (the guard is on the transport,
not on the `ready` state): nothing is sent, nothing is queued, the whole
state is unchanged.  When the socket is open — including during
`settingUp`, before `ready` — the frame or audio chunk is sent
immediately, and it is never queued in any case. -/
theorem sendMedia_noop_iff_socket_closed (s : ClientState) (d : String) :
    (¬(s.wsAttached = true ∧ s.wsOpen = true) →
      step s (.callSendVideoFrame d) = s ∧ step s (.callSendAudio d) = s) ∧
    (s.wsAttached = true → s.wsOpen = true →
      (step s (.callSendVideoFrame d)).sent = s.sent ++ [.realtimeVideo d] ∧
      (step s (.callSendAudio d)).sent = s.sent ++ [.realtimeAudio d] ∧
      (step s (.callSendVideoFrame d)).sendQueue = s.sendQueue ∧
      (step s (.callSendAudio d)).sendQueue = s.sendQueue) := by
  constructor
  · intro hcond
    have hb : (s.wsAttached && s.wsOpen) = false := by
      rcases Bool.eq_false_or_eq_true s.wsAttached with ha | ha <;>
        rcases Bool.eq_false_or_eq_true s.wsOpen with ho | ho <;>
          simp_all
    simp [step, hb]
  · intro ha ho
    simp [step, sendJSON, ha, ho]

/-- C4 amended witness: no-op on the fresh (still-connecting) client;
immediate send once the transport is open. -/
theorem sendMedia_noop_iff_socket_closed_witness :
    (step initialConnect (.callSendVideoFrame "f") = initialConnect ∧
      step initialConnect (.callSendAudio "a") = initialConnect) ∧
    (step (runEvents initialConnect [.wsOpen])
        (.callSendVideoFrame "f")).sent = [.setup, .realtimeVideo "f"] := by
  refine ⟨?_, ?_⟩
  · exact ⟨((sendMedia_noop_iff_socket_closed initialConnect "f").1 (by decide)).1,
      ((sendMedia_noop_iff_socket_closed initialConnect "a").1 (by decide)).2⟩
  · have h := (sendMedia_noop_iff_socket_closed
      (runEvents initialConnect [.wsOpen]) "f").2 (by decide) (by decide)
    have hsent : (runEvents initialConnect [.wsOpen]).sent = [.setup] := by decide
    rw [h.1, hsent]; rfl

/-! ### Claims about the tracker geometry -/

/-- The geometric intersection area of two boxes, `0` when they are
disjoint (the quantity named `intersectionArea` by the specification). -/
def interArea (a b : BoundingBox) : ℚ :=
  max 0 (min (a.x + a.width) (b.x + b.width) - max a.x b.x) *
    max 0 (min (a.y + a.height) (b.y + b.height) - max a.y b.y)

/-- The geometric union area (`unionArea` of the specification). -/
def unionArea (a b : BoundingBox) : ℚ :=
  a.width * a.height + b.width * b.height - interArea a b

/-- C7: for boxes of positive width and height, `iou` is `0` when the
intersection is empty or degenerate, `1` on identical boxes, and in
general equals `intersectionArea / unionArea`. -/
theorem iou_spec (a b : BoundingBox)
    (haw : 0 < a.width) (hah : 0 < a.height)
    (hbw : 0 < b.width) (hbh : 0 < b.height) :
    ((min (a.x + a.width) (b.x + b.width) ≤ max a.x b.x ∨
        min (a.y + a.height) (b.y + b.height) ≤ max a.y b.y) →
      iou a b = 0) ∧
    (a = b → iou a b = 1) ∧
    iou a b = interArea a b / unionArea a b := by
  have hgen : iou a b = interArea a b / unionArea a b := by
    by_cases hov : min (a.x + a.width) (b.x + b.width) ≤ max a.x b.x ∨
        min (a.y + a.height) (b.y + b.height) ≤ max a.y b.y
    · have hiou : iou a b = 0 := by
        simp only [iou]; rw [if_pos hov]
      have hinter : interArea a b = 0 := by
        rcases hov with hx | hy
        · have : min (a.x + a.width) (b.x + b.width) - max a.x b.x ≤ 0 := by
            linarith
          simp only [interArea]
          rw [max_eq_left this]
          ring
        · have : min (a.y + a.height) (b.y + b.height) - max a.y b.y ≤ 0 := by
            linarith
          simp only [interArea]
          rw [max_eq_left this]
          ring
      rw [hiou, hinter, zero_div]
    · push_neg at hov
      obtain ⟨hx, hy⟩ := hov
      have hxpos : 0 ≤ min (a.x + a.width) (b.x + b.width) - max a.x b.x := by
        linarith
      have hypos : 0 ≤ min (a.y + a.height) (b.y + b.height) - max a.y b.y := by
        linarith
      have hinter : interArea a b =
          (min (a.x + a.width) (b.x + b.width) - max a.x b.x) *
            (min (a.y + a.height) (b.y + b.height) - max a.y b.y) := by
        simp only [interArea]
        rw [max_eq_right hxpos, max_eq_right hypos]
      have hwle : min (a.x + a.width) (b.x + b.width) - max a.x b.x ≤ a.width := by
        have h1 : min (a.x + a.width) (b.x + b.width) ≤ a.x + a.width :=
          min_le_left _ _
        have h2 : a.x ≤ max a.x b.x := le_max_left _ _
        linarith
      have hhle : min (a.y + a.height) (b.y + b.height) - max a.y b.y
          ≤ a.height := by
        have h1 : min (a.y + a.height) (b.y + b.height) ≤ a.y + a.height :=
          min_le_left _ _
        have h2 : a.y ≤ max a.y b.y := le_max_left _ _
        linarith
      have hinterle : interArea a b ≤ a.width * a.height := by
        rw [hinter]
        exact mul_le_mul hwle hhle hypos (le_of_lt haw)
      have hunion : 0 < unionArea a b := by
        have hB : 0 < b.width * b.height := mul_pos hbw hbh
        simp only [unionArea]
        linarith
      have hnotle : ¬ (a.width * a.height + b.width * b.height -
          (min (a.x + a.width) (b.x + b.width) - max a.x b.x) *
            (min (a.y + a.height) (b.y + b.height) - max a.y b.y) ≤ 0) := by
        have := hunion
        simp only [unionArea, hinter] at this
        linarith
      have hcond : ¬ (min (a.x + a.width) (b.x + b.width) ≤ max a.x b.x ∨
          min (a.y + a.height) (b.y + b.height) ≤ max a.y b.y) := by
        push_neg
        exact ⟨hx, hy⟩
      simp only [iou]
      rw [if_neg hcond, if_neg hnotle, hinter]
      simp only [unionArea, hinter]
  refine ⟨?_, ?_, hgen⟩
  · intro hov
    simp only [iou]; rw [if_pos hov]
  · intro hab
    subst hab
    have hcond : ¬ (min (a.x + a.width) (a.x + a.width) ≤ max a.x a.x ∨
        min (a.y + a.height) (a.y + a.height) ≤ max a.y a.y) := by
      push_neg
      constructor <;> simp <;> linarith
    have harea : 0 < a.width * a.height := mul_pos haw hah
    simp only [iou]
    rw [if_neg hcond]
    simp only [min_self, max_self]
    have hinter : (a.x + a.width - a.x) * (a.y + a.height - a.y)
        = a.width * a.height := by ring
    rw [hinter]
    rw [if_neg (by linarith)]
    field_simp

/-- C7 witness: disjoint unit boxes have IoU `0`; a box against itself
has IoU `1`. -/
theorem iou_spec_witness :
    iou ⟨0, 0, 1, 1⟩ ⟨5, 5, 1, 1⟩ = 0 ∧ iou ⟨0, 0, 1, 1⟩ ⟨0, 0, 1, 1⟩ = 1 :=
  ⟨(iou_spec ⟨0, 0, 1, 1⟩ ⟨5, 5, 1, 1⟩ (by norm_num) (by norm_num)
      (by norm_num) (by norm_num)).1 (by norm_num),
   (iou_spec ⟨0, 0, 1, 1⟩ ⟨0, 0, 1, 1⟩ (by norm_num) (by norm_num)
      (by norm_num) (by norm_num)).2.1 rfl⟩

/-! ### Tracker lemmas -/

/-- On singleton lists, `mergeWithPrevious` with a matching pair (IoU
above the match threshold) keeps the previous bbox when the stability
threshold is met, lerps otherwise, and applies the label-upgrade rule. -/
theorem merge_singleton (prevL newL : String) (B B' : BoundingBox)
    (lerpT : ℚ) (h : MATCH_IOU_THRESH < iou B B') :
    mergeWithPrevious [⟨prevL, B⟩] [⟨newL, B'⟩] lerpT =
      [⟨if isMoreSpecificThan prevL newL then newL else prevL,
        if STABILITY_IOU ≤ iou B B' then B else lerpBbox B B' lerpT⟩] := by
  have hscan : scanBest (fun d => iou d.bbox B') []
      ([(⟨prevL, B⟩ : DetectedItem)].enum) none MATCH_IOU_THRESH
      = (some 0, iou B B') := by
    show scanBest (fun d => iou d.bbox B') [] [(0, ⟨prevL, B⟩)] none
        MATCH_IOU_THRESH = (some 0, iou B B')
    simp only [scanBest, List.contains]
    rw [if_neg (by simp), if_pos h]
  simp only [mergeWithPrevious, mergeLoop, hscan, List.getD]
  rfl

/-- The analogous singleton computation for `stepDisplayedTowardTarget`
(its lower 0.05 match threshold is implied by the 0.15 one). -/
theorem step_singleton (prevL newL : String) (B B' : BoundingBox)
    (lerpT : ℚ) (h : MATCH_IOU_THRESH < iou B B') :
    stepDisplayedTowardTarget [⟨prevL, B⟩] [⟨newL, B'⟩] lerpT =
      [⟨if isMoreSpecificThan prevL newL then newL else prevL,
        if STABILITY_IOU ≤ iou B B' then B else lerpBbox B B' lerpT⟩] := by
  have h05 : (0.05 : ℚ) < iou B B' := by
    have : (0.05 : ℚ) < MATCH_IOU_THRESH := by norm_num [MATCH_IOU_THRESH]
    linarith
  have hscan : scanBest (fun item => iou B item.bbox) []
      ([(⟨newL, B'⟩ : DetectedItem)].enum) none 0.05
      = (some 0, iou B B') := by
    show scanBest (fun item => iou B item.bbox) [] [(0, ⟨newL, B'⟩)] none 0.05
        = (some 0, iou B B')
    simp only [scanBest, List.contains]
    rw [if_neg (by simp), if_pos h05]
  simp only [stepDisplayedTowardTarget, stepLoop, hscan, List.getD]
  rfl

/-! ### Claims C5 and C6 -/

/-- C5: on a matched pair (IoU strictly above the 0.15 match threshold),
`mergeWithPrevious` freezes the previous bbox exactly when IoU is at or
above the 0.82 stability threshold and otherwise lerps previous toward
new by the blend factor; in particular `displayed=[{milk, B}]`,
`target=[{milk, B'}]` with `IoU(B,B') ≥ 0.82` gives exactly
`[{milk, B}]`. -/
theorem merge_stability_freeze (B B' : BoundingBox) (lerpT : ℚ) :
    (∀ prevL newL : String, STABILITY_IOU ≤ iou B B' →
      mergeWithPrevious [⟨prevL, B⟩] [⟨newL, B'⟩] lerpT =
        [⟨if isMoreSpecificThan prevL newL then newL else prevL, B⟩]) ∧
    (∀ prevL newL : String,
      MATCH_IOU_THRESH < iou B B' → iou B B' < STABILITY_IOU →
      mergeWithPrevious [⟨prevL, B⟩] [⟨newL, B'⟩] lerpT =
        [⟨if isMoreSpecificThan prevL newL then newL else prevL,
          lerpBbox B B' lerpT⟩]) ∧
    (STABILITY_IOU ≤ iou B B' →
      mergeWithPrevious [⟨"milk", B⟩] [⟨"milk", B'⟩] lerpT = [⟨"milk", B⟩]) := by
  have hthresh : MATCH_IOU_THRESH < STABILITY_IOU := by
    norm_num [MATCH_IOU_THRESH, STABILITY_IOU]
  have hfreeze : ∀ prevL newL : String, STABILITY_IOU ≤ iou B B' →
      mergeWithPrevious [⟨prevL, B⟩] [⟨newL, B'⟩] lerpT =
        [⟨if isMoreSpecificThan prevL newL then newL else prevL, B⟩] := by
    intro prevL newL hstab
    rw [merge_singleton prevL newL B B' lerpT (lt_of_lt_of_le hthresh hstab)]
    rw [if_pos hstab]
  refine ⟨hfreeze, ?_, ?_⟩
  · intro prevL newL hmatch hlt
    rw [merge_singleton prevL newL B B' lerpT hmatch]
    rw [if_neg (not_le_of_lt hlt)]
  · intro hstab
    rw [hfreeze "milk" "milk" hstab]
    have : isMoreSpecificThan "milk" "milk" = false := by decide
    rw [this]
    rfl

/-- C5 witness: identical unit boxes (IoU 1 ≥ 0.82) freeze to the
previous box with label `milk`; half-overlapping boxes (IoU 1/2, between
the thresholds) interpolate. -/
theorem merge_stability_freeze_witness :
    mergeWithPrevious [⟨"milk", ⟨0, 0, 1, 1⟩⟩] [⟨"milk", ⟨0, 0, 1, 1⟩⟩] 0.35
      = [⟨"milk", ⟨0, 0, 1, 1⟩⟩] ∧
    mergeWithPrevious [⟨"milk", ⟨0, 0, 1, 1⟩⟩] [⟨"milk", ⟨0, 0, 1, 0.5⟩⟩] 0.35
      = [⟨if isMoreSpecificThan "milk" "milk" then "milk" else "milk",
          lerpBbox ⟨0, 0, 1, 1⟩ ⟨0, 0, 1, 0.5⟩ 0.35⟩] :=
  ⟨(merge_stability_freeze ⟨0, 0, 1, 1⟩ ⟨0, 0, 1, 1⟩ 0.35).2.2
      (by norm_num [iou, STABILITY_IOU]),
   (merge_stability_freeze ⟨0, 0, 1, 1⟩ ⟨0, 0, 1, 0.5⟩ 0.35).2.1 "milk" "milk"
      (by norm_num [iou, MATCH_IOU_THRESH])
      (by norm_num [iou, STABILITY_IOU])⟩

/-- The fixed set of generic nouns as listed by the specification. -/
def claimGenericNouns : List String :=
  ["box", "boxes", "bottle", "bottles", "can", "cans", "container",
    "containers", "item", "items"]

/-- The specification's notion of a generic label: member of the fixed
set after lowercasing and trimming, or at most 3 characters long. -/
def claimIsGeneric (label : String) : Bool :=
  claimGenericNouns.contains (jsTrim (jsToLowerCase label))
    || decide ((jsTrim (jsToLowerCase label)).length ≤ 3)

/-- The specification's label-upgrade condition: previous label generic,
new label not generic, and the new label at least as long as the previous
one or consisting of more than one whitespace-separated piece. -/
def claimUpgradesLabel (prevL newL : String) : Bool :=
  claimIsGeneric prevL && !claimIsGeneric newL
    && (decide (prevL.length ≤ newL.length)
        || decide (1 < (jsSplitWs newL).length))

theorem claimIsGeneric_eq_isGenericLabel :
    ∀ l : String, claimIsGeneric l = isGenericLabel l := fun _ => rfl

theorem isMoreSpecificThan_eq_claim (p n : String) :
    isMoreSpecificThan p n = claimUpgradesLabel p n := by
  have hp := claimIsGeneric_eq_isGenericLabel p
  have hn := claimIsGeneric_eq_isGenericLabel n
  cases hpg : isGenericLabel p <;> cases hng : isGenericLabel n <;>
    simp [isMoreSpecificThan, claimUpgradesLabel, hp, hn, hpg, hng]

/-- C6: for a matched singleton pair, in both `mergeWithPrevious` and
`stepDisplayedTowardTarget` the resulting label is the new one exactly
when the specification's upgrade condition holds (previous generic, new
not generic, and new at least as long or multi-word), otherwise the
previous one; in particular `box` matched to `canned tuna` upgrades, and
a specific previous label matched to a generic new one is kept. -/
theorem label_upgrade_rule (prevL newL : String) (B B' : BoundingBox)
    (lerpT : ℚ) (h : MATCH_IOU_THRESH < iou B B') :
    (mergeWithPrevious [⟨prevL, B⟩] [⟨newL, B'⟩] lerpT).map DetectedItem.label
      = [if claimUpgradesLabel prevL newL then newL else prevL] ∧
    (stepDisplayedTowardTarget [⟨prevL, B⟩] [⟨newL, B'⟩] lerpT).map
        DetectedItem.label
      = [if claimUpgradesLabel prevL newL then newL else prevL] ∧
    (mergeWithPrevious [⟨"box", B⟩] [⟨"canned tuna", B'⟩] lerpT).map
        DetectedItem.label = ["canned tuna"] ∧
    (mergeWithPrevious [⟨"canned tuna", B⟩] [⟨"box", B'⟩] lerpT).map
        DetectedItem.label = ["canned tuna"] := by
  refine ⟨?_, ?_, ?_, ?_⟩
  · rw [merge_singleton prevL newL B B' lerpT h,
      isMoreSpecificThan_eq_claim]
    cases claimUpgradesLabel prevL newL <;> simp
  · rw [step_singleton prevL newL B B' lerpT h,
      isMoreSpecificThan_eq_claim]
    cases claimUpgradesLabel prevL newL <;> simp
  · rw [merge_singleton "box" "canned tuna" B B' lerpT h]
    have : isMoreSpecificThan "box" "canned tuna" = true := by decide
    rw [this]
    simp
  · rw [merge_singleton "canned tuna" "box" B B' lerpT h]
    have : isMoreSpecificThan "canned tuna" "box" = false := by decide
    rw [this]
    simp

/-- C6 witness: concrete overlapping boxes (IoU 1/2 > 0.15) with the
`box` → `canned tuna` upgrade pair. -/
theorem label_upgrade_rule_witness :
    (mergeWithPrevious [⟨"box", ⟨0, 0, 1, 1⟩⟩]
        [⟨"canned tuna", ⟨0, 0, 1, 0.5⟩⟩] 0.35).map DetectedItem.label
      = [if claimUpgradesLabel "box" "canned tuna" then "canned tuna"
          else "box"] ∧
    (mergeWithPrevious [⟨"canned tuna", ⟨0, 0, 1, 1⟩⟩]
        [⟨"box", ⟨0, 0, 1, 0.5⟩⟩] 0.35).map DetectedItem.label
      = ["canned tuna"] :=
  ⟨(label_upgrade_rule "box" "canned tuna" ⟨0, 0, 1, 1⟩ ⟨0, 0, 1, 0.5⟩ 0.35
      (by norm_num [iou, MATCH_IOU_THRESH])).1,
   (label_upgrade_rule "canned tuna" "box" ⟨0, 0, 1, 1⟩ ⟨0, 0, 1, 0.5⟩ 0.35
      (by norm_num [iou, MATCH_IOU_THRESH])).2.2.2⟩

/-! ### Claim C10 : output size and injective matching -/

theorem mergeLoop_length (displayed : List DetectedItem) (lerpT : ℚ) :
    ∀ (ts : List DetectedItem) (used : List ℕ),
      (mergeLoop displayed lerpT ts used).1.length = ts.length := by
  intro ts
  induction ts with
  | nil => intro used; simp [mergeLoop]
  | cons t ts ih =>
    intro used
    simp only [mergeLoop]
    rcases hscan : scanBest (fun d => iou d.bbox t.bbox) used displayed.enum
        none MATCH_IOU_THRESH with ⟨bi, bv⟩
    cases bi <;> simp [ih]

/-- If the scan starting from `none` returns an index, that index comes
from the scanned enumeration and was not in `used`. -/
theorem scanBest_mem (score : DetectedItem → ℚ) (used : List ℕ) :
    ∀ (l : List (ℕ × DetectedItem)) (bi : Option ℕ) (bv : ℚ) (i : ℕ) (v : ℚ),
      scanBest score used l bi bv = (some i, v) →
      bi = some i ∨ ((∃ d, (i, d) ∈ l) ∧ used.contains i = false) := by
  intro l
  induction l with
  | nil =>
    intro bi bv i v h
    simp only [scanBest, Prod.mk.injEq] at h
    exact Or.inl h.1
  | cons p rest ih =>
    obtain ⟨j, d⟩ := p
    intro bi bv i v h
    simp only [scanBest] at h
    by_cases hc : used.contains j = true
    · rw [if_pos hc] at h
      rcases ih _ _ _ _ h with h1 | h2
      · exact Or.inl h1
      · obtain ⟨⟨d', hd'⟩, hu⟩ := h2
        exact Or.inr ⟨⟨d', List.mem_cons_of_mem _ hd'⟩, hu⟩
    · have hc' : used.contains j = false := Bool.eq_false_iff.mpr hc
      rw [if_neg hc] at h
      by_cases hlt : bv < score d
      · rw [if_pos hlt] at h
        rcases ih _ _ _ _ h with h1 | h2
        · have hji : j = i := Option.some_inj.mp h1
          subst hji
          exact Or.inr ⟨⟨d, List.mem_cons_self _ _⟩, hc'⟩
        · obtain ⟨⟨d', hd'⟩, hu⟩ := h2
          exact Or.inr ⟨⟨d', List.mem_cons_of_mem _ hd'⟩, hu⟩
      · rw [if_neg hlt] at h
        rcases ih _ _ _ _ h with h1 | h2
        · exact Or.inl h1
        · obtain ⟨⟨d', hd'⟩, hu⟩ := h2
          exact Or.inr ⟨⟨d', List.mem_cons_of_mem _ hd'⟩, hu⟩

/-- `mergeLoop` appends a duplicate-free batch of fresh, in-range
displayed indices to `used`: no displayed item is consumed by two
target items. -/
theorem mergeLoop_spec (displayed : List DetectedItem) (lerpT : ℚ) :
    ∀ (ts : List DetectedItem) (used : List ℕ),
      ∃ new : List ℕ,
        (mergeLoop displayed lerpT ts used).2 = new ++ used ∧
        (∀ i ∈ new, i < displayed.length) ∧
        (used.Nodup → (new ++ used).Nodup) := by
  intro ts
  induction ts with
  | nil =>
    intro used
    exact ⟨[], by simp [mergeLoop], by simp, by simp⟩
  | cons t ts ih =>
    intro used
    simp only [mergeLoop]
    rcases hscan : scanBest (fun d => iou d.bbox t.bbox) used displayed.enum
        none MATCH_IOU_THRESH with ⟨bi, bv⟩
    cases bi with
    | none => simpa using ih used
    | some j =>
      have hmem := scanBest_mem (fun d => iou d.bbox t.bbox) used
        displayed.enum none MATCH_IOU_THRESH j bv hscan
      rcases hmem with h1 | h2
      · exact absurd h1 (by simp)
      · obtain ⟨⟨dj, hdj⟩, hju⟩ := h2
        have hjlt : j < displayed.length := by
          have := List.mem_enumFrom hdj
          omega
        have hjnot : j ∉ used := by simpa using hju
        obtain ⟨new', e1, e3, e4⟩ := ih (j :: used)
        refine ⟨new' ++ [j], ?_, ?_, ?_⟩
        · simpa [List.append_assoc] using e1
        · intro i hi
          rcases List.mem_append.mp hi with hi' | hi'
          · exact e3 i hi'
          · simp at hi'
            subst hi'
            exact hjlt
        · intro hnd
          have : (j :: used).Nodup := List.nodup_cons.mpr ⟨hjnot, hnd⟩
          simpa [List.append_assoc] using e4 this

/-- `stepLoop` appends a duplicate-free batch of fresh, in-range target
indices to `used`, and outputs exactly one item per new index. -/
theorem stepLoop_spec (target : List DetectedItem) (lerpT : ℚ) :
    ∀ (ds : List DetectedItem) (used : List ℕ),
      ∃ new : List ℕ,
        (stepLoop target lerpT ds used).2 = new ++ used ∧
        (stepLoop target lerpT ds used).1.length = new.length ∧
        (∀ i ∈ new, i < target.length) ∧
        (used.Nodup → (new ++ used).Nodup) := by
  intro ds
  induction ds with
  | nil =>
    intro used
    exact ⟨[], by simp [stepLoop], by simp [stepLoop], by simp, by simp⟩
  | cons d ds ih =>
    intro used
    simp only [stepLoop]
    rcases hscan : scanBest (fun item => iou d.bbox item.bbox) used
        target.enum none 0.05 with ⟨bi, bv⟩
    cases bi with
    | none => simpa using ih used
    | some j =>
      have hmem := scanBest_mem (fun item => iou d.bbox item.bbox) used
        target.enum none 0.05 j bv hscan
      rcases hmem with h1 | h2
      · exact absurd h1 (by simp)
      · obtain ⟨⟨dj, hdj⟩, hju⟩ := h2
        have hjlt : j < target.length := by
          have := List.mem_enumFrom hdj
          omega
        have hjnot : j ∉ used := by simpa using hju
        obtain ⟨new', e1, e2, e3, e4⟩ := ih (j :: used)
        refine ⟨new' ++ [j], ?_, ?_, ?_, ?_⟩
        · simpa [List.append_assoc] using e1
        · simpa using e2
        · intro i hi
          rcases List.mem_append.mp hi with hi' | hi'
          · exact e3 i hi'
          · simp at hi'
            subst hi'
            exact hjlt
        · intro hnd
          have : (j :: used).Nodup := List.nodup_cons.mpr ⟨hjnot, hnd⟩
          simpa [List.append_assoc] using e4 this

/-- Counting lemma for the unmatched-target pass: removing a
duplicate-free batch of in-range indices from `range n` shortens the
filtered list by exactly the batch size. -/
theorem length_filter_not_contains :
    ∀ (new : List ℕ) (n : ℕ), new.Nodup → (∀ i ∈ new, i < n) →
      ((List.range n).filter (fun i => !new.contains i)).length + new.length
        = n := by
  intro new
  induction new with
  | nil => intro n _ _; simp
  | cons j tl ih =>
    intro n hnd hlt
    have htl : tl.Nodup := (List.nodup_cons.mp hnd).2
    have hjtl : j ∉ tl := (List.nodup_cons.mp hnd).1
    have hltl : ∀ i ∈ tl, i < n := fun i hi => hlt i (List.mem_cons_of_mem _ hi)
    have hpred : (fun i => !(j :: tl).contains i)
        = fun i => !(i == j) && !tl.contains i := by
      funext i
      simp only [List.contains_cons, Bool.not_or, Bool.and_comm]
    rw [hpred, ← List.filter_filter]
    set L := (List.range n).filter (fun i => !tl.contains i) with hL
    have hLnd : L.Nodup := (List.nodup_range n).filter _
    have hjL : j ∈ L := by
      rw [hL, List.mem_filter]
      refine ⟨List.mem_range.mpr (hlt j (List.mem_cons_self _ _)), ?_⟩
      simpa using hjtl
    have herase : L.filter (fun i => !(i == j)) = L.erase j := by
      rw [hLnd.erase_eq_filter j]
      simp only [bne]
    rw [herase, List.length_erase_of_mem hjL]
    have hIH : L.length + tl.length = n := ih n htl hltl
    have hLpos : 1 ≤ L.length := List.length_pos_of_mem hjL
    simp only [List.length_cons]
    omega

/-- C10: both tracker operations return exactly one item per target item
(`result.length = target.length`; an empty target yields an empty
result), and the matching is injective in both: the used-index set
accumulated by `mergeLoop` (displayed indices consumed by
`mergeWithPrevious`) and the one accumulated by `stepLoop` (target
indices consumed by `stepDisplayedTowardTarget`) are both
duplicate-free, so no item is matched twice. -/
theorem tracker_output_sizes (displayed target : List DetectedItem)
    (lerpT : ℚ) :
    (mergeWithPrevious displayed target lerpT).length = target.length ∧
    (stepDisplayedTowardTarget displayed target lerpT).length
      = target.length ∧
    (mergeLoop displayed lerpT target []).2.Nodup ∧
    (stepLoop target lerpT displayed []).2.Nodup ∧
    mergeWithPrevious displayed [] lerpT = [] ∧
    stepDisplayedTowardTarget displayed [] lerpT = [] := by
  obtain ⟨new, e1, e2, e3, e4⟩ := stepLoop_spec target lerpT displayed []
  have hnew : (stepLoop target lerpT displayed []).2 = new := by
    simpa using e1
  have hnd : new.Nodup := by
    have := e4 List.nodup_nil
    simpa using this
  have hstep : (stepDisplayedTowardTarget displayed target lerpT).length
      = target.length := by
    simp only [stepDisplayedTowardTarget, List.length_append, List.length_map,
      e2, hnew]
    have := length_filter_not_contains new target.length hnd e3
    omega
  refine ⟨mergeLoop_length displayed lerpT target [], hstep, ?_, ?_, ?_, ?_⟩
  · obtain ⟨mnew, m1, _, m3⟩ := mergeLoop_spec displayed lerpT target []
    have := m3 List.nodup_nil
    rw [m1]
    simpa using this
  · rw [hnew]; simpa using hnd
  · rfl
  · obtain ⟨new0, f1, f2, f3, f4⟩ :=
      stepLoop_spec ([] : List DetectedItem) lerpT displayed []
    have hnil : new0 = [] := by
      cases new0 with
      | nil => rfl
      | cons a tl => exact absurd (f3 a (List.mem_cons_self _ _)) (by simp)
    have hlen0 : (stepLoop ([] : List DetectedItem) lerpT displayed []).1 = [] := by
      have := f2
      rw [hnil] at this
      exact List.length_eq_zero.mp (by simpa using this)
    simp [stepDisplayedTowardTarget, hlen0]

/-! ### Claim C8 : gapless playback scheduling -/

/-- C8: `playPcm24k` schedules each chunk at the maximum of the
next-play-time watermark and the current time and advances the watermark
by the chunk's duration; feeding three chunks of equal duration `D`
back-to-back (each before the previously scheduled audio has finished)
from the initial state yields start times `t0`, `t0 + D`, `t0 + 2D` —
no gaps and no overlap — and leaves the watermark at `t0 + 3D`. -/
theorem playback_gapless_schedule (c1 c2 c3 : List ℤ) (D t0 t1 t2 : ℚ)
    (h1 : chunkDuration c1 = D) (h2 : chunkDuration c2 = D)
    (h3 : chunkDuration c3 = D) (ht0 : 0 ≤ t0)
    (ht1 : t1 ≤ t0 + D) (ht2 : t2 ≤ t0 + 2 * D) :
    (∀ (st : PlaybackState) (c : List ℤ) (now : ℚ), st.playbackQueue = [] →
      (playPcm24k c now st).started
          = st.started ++ [max st.nextPlayTime now] ∧
      (playPcm24k c now st).nextPlayTime
          = max st.nextPlayTime now + chunkDuration c) ∧
    (playPcm24k c3 t2 (playPcm24k c2 t1
        (playPcm24k c1 t0 initialPlayback))).started
      = [t0, t0 + D, t0 + 2 * D] ∧
    (playPcm24k c3 t2 (playPcm24k c2 t1
        (playPcm24k c1 t0 initialPlayback))).nextPlayTime
      = t0 + 3 * D := by
  have hmech : ∀ (st : PlaybackState) (c : List ℤ) (now : ℚ),
      st.playbackQueue = [] →
      (playPcm24k c now st).started
          = st.started ++ [max st.nextPlayTime now] ∧
      (playPcm24k c now st).nextPlayTime
          = max st.nextPlayTime now + chunkDuration c := by
    intro st c now hq
    simp [playPcm24k, drainPlayback, hq]
  have s1 : playPcm24k c1 t0 initialPlayback
      = ⟨[], t0 + D, [t0]⟩ := by
    simp [playPcm24k, drainPlayback, initialPlayback, h1, max_eq_right ht0]
  have s2 : playPcm24k c2 t1 (⟨[], t0 + D, [t0]⟩ : PlaybackState)
      = ⟨[], t0 + 2 * D, [t0, t0 + D]⟩ := by
    simp only [playPcm24k, drainPlayback]
    simp [h2, max_eq_left ht1]
    ring
  have s3 : playPcm24k c3 t2 (⟨[], t0 + 2 * D, [t0, t0 + D]⟩ : PlaybackState)
      = ⟨[], t0 + 3 * D, [t0, t0 + D, t0 + 2 * D]⟩ := by
    simp only [playPcm24k, drainPlayback]
    simp [h3, max_eq_left ht2]
    ring
  rw [s1, s2, s3]
  exact ⟨hmech, rfl, rfl⟩

/-- C8 witness: three one-sample chunks of duration `1/24000`, all fed
at time `0`. -/
theorem playback_gapless_schedule_witness :
    (playPcm24k [0] 0 (playPcm24k [0] 0
        (playPcm24k [0] 0 initialPlayback))).started
      = [0, 0 + 1 / 24000, 0 + 2 * (1 / 24000)] :=
  (playback_gapless_schedule [0] [0] [0] (1 / 24000) 0 0 0
    (by norm_num [chunkDuration, decodeSamples, RECV_SAMPLE_RATE])
    (by norm_num [chunkDuration, decodeSamples, RECV_SAMPLE_RATE])
    (by norm_num [chunkDuration, decodeSamples, RECV_SAMPLE_RATE])
    le_rfl (by norm_num) (by norm_num)).2.1

/-! ### Claim C9 : capture chunking and clamped quantization -/

theorem emitChunks_spec (p : ℚ → Bool) :
    ∀ (n : ℕ) (buf : List ℚ), buf.length ≤ n →
      ((emitChunks buf).1.all fun c => c.length == SEND_FRAMES) = true ∧
      (buf.all p = true →
        ((emitChunks buf).1.all fun c => c.all p) = true ∧
        (emitChunks buf).2.all p = true) := by
  intro n
  induction n with
  | zero =>
    intro buf hb
    have hlt : ¬ SEND_FRAMES ≤ buf.length := by
      have : SEND_FRAMES = 1600 := rfl
      omega
    rw [emitChunks, dif_neg hlt]
    exact ⟨rfl, fun hp => ⟨rfl, hp⟩⟩
  | succ n ih =>
    intro buf hb
    rw [emitChunks]
    by_cases h : SEND_FRAMES ≤ buf.length
    · rw [dif_pos h]
      have hdrop : (buf.drop SEND_FRAMES).length ≤ n := by
        have h16 : SEND_FRAMES = 1600 := rfl
        simp only [List.length_drop]
        omega
      obtain ⟨ihl, ihp⟩ := ih (buf.drop SEND_FRAMES) hdrop
      constructor
      · simp only [List.all_cons, Bool.and_eq_true]
        refine ⟨?_, ihl⟩
        have : (buf.take SEND_FRAMES).length = SEND_FRAMES := by
          simp [List.length_take, min_eq_left h]
        simp [this]
      · intro hp
        have hptake : (buf.take SEND_FRAMES).all p = true := by
          rw [List.all_eq_true] at hp ⊢
          exact fun x hx => hp x (List.take_subset _ _ hx)
        have hpdrop : (buf.drop SEND_FRAMES).all p = true := by
          rw [List.all_eq_true] at hp ⊢
          exact fun x hx => hp x (List.drop_subset _ _ hx)
        obtain ⟨q1, q2⟩ := ihp hpdrop
        constructor
        · simp only [List.all_cons, Bool.and_eq_true]
          exact ⟨hptake, q1⟩
        · exact q2
    · rw [dif_neg h]
      exact ⟨rfl, fun hp => ⟨rfl, hp⟩⟩

/-- Clamped samples lie in `[-1, 1]`. -/
theorem clampSample_bounds (x : ℚ) :
    -1 ≤ clampSample x ∧ clampSample x ≤ 1 :=
  ⟨le_max_left _ _, max_le (by norm_num) (min_le_left _ _)⟩

/-- For a clamped sample, the quantization clamp at `±32768/32767` never
binds: the floor is already in `[-32767, 32767]`, so the stored 16-bit
value equals the floor and cannot wrap. -/
theorem quantize_clamped (x : ℚ) :
    quantizeSample (clampSample x) = ⌊clampSample x * 32767⌋ ∧
    -32768 ≤ quantizeSample (clampSample x) ∧
    quantizeSample (clampSample x) ≤ 32767 := by
  obtain ⟨hl, hu⟩ := clampSample_bounds x
  have h1 : clampSample x * 32767 ≤ 32767 := by nlinarith
  have h2 : (-32767 : ℚ) ≤ clampSample x * 32767 := by nlinarith
  have hf1 : ⌊clampSample x * 32767⌋ ≤ 32767 := by
    have := Int.floor_le_floor h1
    simpa using this
  have hf2 : (-32767 : ℤ) ≤ ⌊clampSample x * 32767⌋ := by
    apply Int.le_floor.mpr
    push_cast
    linarith
  have hq : quantizeSample (clampSample x) = ⌊clampSample x * 32767⌋ := by
    simp only [quantizeSample]
    rw [min_eq_right hf1, max_eq_right (by omega)]
  exact ⟨hq, by omega, by omega⟩

/-- C9: over any capture session, every emitted chunk holds exactly
`SEND_FRAMES = 1600` samples; every sample in every emitted chunk has
been clamped into `[-1, 1]`; and quantizing a clamped sample is exactly
`⌊s·32767⌋`, which lies in `[-32768, 32767]` — no wraparound, for every
input value including those outside `[-1, 1]`. -/
theorem mic_capture_chunks (inputs : List (List ℚ)) :
    ((micRun inputs).1.all fun c => c.length == SEND_FRAMES) = true ∧
    SEND_FRAMES = 1600 ∧
    ((micRun inputs).1.all fun c =>
        c.all fun s => decide (-1 ≤ s) && decide (s ≤ 1)) = true ∧
    (∀ x : ℚ, quantizeSample (clampSample x) = ⌊clampSample x * 32767⌋ ∧
      -32768 ≤ quantizeSample (clampSample x) ∧
      quantizeSample (clampSample x) ≤ 32767) := by
  have hp : ∀ x : ℚ,
      (fun s => decide (-1 ≤ s) && decide (s ≤ 1)) (clampSample x) = true := by
    intro x
    obtain ⟨hl, hu⟩ := clampSample_bounds x
    simp [hl, hu]
  have main : ∀ (ins : List (List ℚ)) (acc : List (List ℚ) × List ℚ),
      (acc.1.all fun c => c.length == SEND_FRAMES) = true →
      (acc.1.all fun c =>
        c.all fun s => decide (-1 ≤ s) && decide (s ≤ 1)) = true →
      (acc.2.all fun s => decide (-1 ≤ s) && decide (s ≤ 1)) = true →
      ((ins.foldl
          (fun acc input =>
            let r := onAudioProcess acc.2 input
            (acc.1 ++ r.1, r.2)) acc).1.all
        fun c => c.length == SEND_FRAMES) = true ∧
      ((ins.foldl
          (fun acc input =>
            let r := onAudioProcess acc.2 input
            (acc.1 ++ r.1, r.2)) acc).1.all
        fun c => c.all fun s => decide (-1 ≤ s) && decide (s ≤ 1)) = true := by
    intro ins
    induction ins with
    | nil => intro acc a1 a2 a3; exact ⟨a1, a2⟩
    | cons input rest ih =>
      intro acc a1 a2 a3
      simp only [List.foldl_cons]
      set p : ℚ → Bool := fun s => decide (-1 ≤ s) && decide (s ≤ 1) with hpdef
      have hbuf : (acc.2 ++ input.map clampSample).all p = true := by
        rw [List.all_append, Bool.and_eq_true]
        refine ⟨a3, ?_⟩
        rw [List.all_eq_true]
        intro x hx
        obtain ⟨y, _, hy⟩ := List.mem_map.mp hx
        rw [← hy]
        exact hp y
      obtain ⟨e1, e2⟩ := emitChunks_spec p
        (acc.2 ++ input.map clampSample).length
        (acc.2 ++ input.map clampSample) le_rfl
      obtain ⟨e3, e4⟩ := e2 hbuf
      apply ih
      · simp only [onAudioProcess, List.all_append, Bool.and_eq_true]
        exact ⟨a1, e1⟩
      · simp only [onAudioProcess, List.all_append, Bool.and_eq_true]
        exact ⟨a2, e3⟩
      · exact e4
  obtain ⟨m1, m2⟩ := main inputs ([], []) rfl rfl rfl
  exact ⟨m1, rfl, m2, quantize_clamped⟩

end ShelfTech
